import Mathlib

/-!
Shallow embedding of the coffee-shop order-queue core of `src/main.py`.

Python dictionaries are modelled as insertion-ordered association lists
(`List (String × Nat)`): `dictGetD` is `dict.get(k, default)`, `dictSet` is
`dict[k] = v` (updates in place, appends a fresh key at the end), and
`dictErase` is `del dict[k]`.  Timestamps (`time.time()`) are modelled as
naturals, dates (`strftime('%Y-%m-%d')`) as strings.  The mutable Streamlit
session state becomes explicit state passing over a `Store` record.
-/

namespace CoffeeShop

/-- The two status strings `'pending'` / `'completed'` used by the code. -/
inductive Status where
  | pending
  | completed
  deriving DecidableEq, Repr, Inhabited

/-- An items map: `(temperature, drinkType)` composite keys (strings such as
`"Hot Latte"`) to quantities, insertion-ordered as a Python dict. -/
abbrev Items := List (String × Nat)

/-- One order record, as built by `add_order` in `src/main.py`. -/
structure Order where
  order_number : String
  drinks : Items
  timestamp : Nat
  status : Status
  deriving DecidableEq, Repr, Inhabited

/-- The session state the core functions touch: `st.session_state.orders`,
`st.session_state.card_counter` and `st.session_state.daily_served`. -/
structure Store where
  orders : List Order
  card_counter : Nat
  daily_served : List (String × Nat)
  deriving DecidableEq, Repr, Inhabited

/-- The empty session state set up by the initialisation block. -/
def initStore : Store := { orders := [], card_counter := 0, daily_served := [] }

/-- Python `m.get(k, d)` over an association list: value of the (unique)
entry with key `k`, else the default. -/
def dictGetD (m : List (String × Nat)) (k : String) (d : Nat) : Nat :=
  match m with
  | [] => d
  | p :: rest => if p.1 == k then p.2 else dictGetD rest k d

/-- Python `m[k] = v`: update the existing entry in place, else append. -/
def dictSet (m : List (String × Nat)) (k : String) (v : Nat) : List (String × Nat) :=
  match m with
  | [] => [(k, v)]
  | p :: rest => if p.1 == k then (k, v) :: rest else p :: dictSet rest k v

/-- Python `del m[k]`: removes the (unique) entry with key `k`. -/
def dictErase (m : List (String × Nat)) (k : String) : List (String × Nat) :=
  m.eraseP (fun p => p.1 == k)

/-- `SUITS` from `src/main.py`. -/
def SUITS : List String := ["♠️", "♥️", "♦️", "♣️"]

/-- `NUMBERS` from `src/main.py`. -/
def NUMBERS : List String := ["A", "2", "3", "4", "5", "6", "7", "8", "9", "10", "J", "Q", "K"]

/-- `generate_order_number`: sequential poker-card ticket from the counter,
returning the identifier together with the incremented counter. -/
def generate_order_number (current_counter : Nat) : String × Nat :=
  let card_position := current_counter % 13
  let suit_position := (current_counter / 13) % 4
  let card_number := NUMBERS.getD card_position ""
  let card_suit := SUITS.getD suit_position ""
  (card_suit ++ card_number, current_counter + 1)

/-- `add_order`: rejects an empty drinks dict, otherwise allocates a ticket
and appends a fresh pending order carrying a copy of the dict. -/
def add_order (s : Store) (drinks_dict : Items) (now : Nat) : Bool × Store :=
  if drinks_dict.isEmpty then (false, s)
  else
    let g := generate_order_number s.card_counter
    let order : Order :=
      { order_number := g.1, drinks := drinks_dict, timestamp := now, status := Status.pending }
    (true, { s with orders := s.orders ++ [order], card_counter := g.2 })

/-- Insert one order into a list kept ascending by timestamp; an element is
placed before the first strictly-later element, so equal timestamps keep
their original relative order (the stability of Python `list.sort`). -/
def insertByTime (o : Order) : List Order → List Order
  | [] => [o]
  | b :: l => if o.timestamp ≤ b.timestamp then o :: b :: l else b :: insertByTime o l

/-- Stable sort by timestamp, modelling `pending.sort(key=lambda x: x.get('timestamp', 0))`. -/
def sortByTime (l : List Order) : List Order :=
  l.foldr insertByTime []

/-- `get_pending_orders`: pending orders sorted ascending by timestamp. -/
def get_pending_orders (s : Store) : List Order :=
  sortByTime (s.orders.filter (fun o => o.status == Status.pending))

/-- One step of the `get_drink_summary` accumulation:
`drink_counts[drink_key] = drink_counts.get(drink_key, 0) + quantity`. -/
def bumpDrink (acc : List (String × Nat)) (p : String × Nat) : List (String × Nat) :=
  dictSet acc p.1 (dictGetD acc p.1 0 + p.2)

/-- `get_drink_summary`: fold every pending order's drinks into a running
total keyed by the composite drink key. -/
def get_drink_summary (s : Store) : List (String × Nat) :=
  (get_pending_orders s).foldl (fun acc o => o.drinks.foldl bumpDrink acc) []

/-- `sum(drinks.values())`. -/
def sumQ (d : Items) : Nat :=
  d.foldl (fun a p => a + p.2) 0

/-- The scan inside `mark_order_completed`: find the first order whose
`order_number` matches (the code never checks the status), flip it to
completed, and bump today's served counter by that order's cup total.
Returns (found, updated orders, updated daily_served). -/
def markLoop (order_number today : String) (daily : List (String × Nat)) :
    List Order → Bool × List Order × List (String × Nat)
  | [] => (false, [], daily)
  | o :: rest =>
    if o.order_number == order_number then
      let total_cups := sumQ o.drinks
      (true, { o with status := Status.completed } :: rest,
       dictSet daily today (dictGetD daily today 0 + total_cups))
    else
      let r := markLoop order_number today daily rest
      (r.1, o :: r.2.1, r.2.2)

/-- `mark_order_completed`, with the current date passed explicitly. -/
def mark_order_completed (s : Store) (order_number : String) (today : String) : Bool × Store :=
  let r := markLoop order_number today s.daily_served s.orders
  (r.1, { s with orders := r.2.1, daily_served := r.2.2 })

/-- `get_today_served`, with the current date passed explicitly. -/
def get_today_served (s : Store) (today : String) : Nat :=
  dictGetD s.daily_served today 0

/-- The Clear Completed Orders button handler:
`orders = [o for o in orders if o.get('status') != 'completed']`. -/
def clear_completed (s : Store) : Store :=
  { s with orders := s.orders.filter (fun o => !(o.status == Status.completed)) }

/-- The plus button on the order page:
`selected_drinks[key] = current + 1`. -/
def selInc (sel : Items) (k : String) : Items :=
  dictSet sel k (dictGetD sel k 0 + 1)

/-- The minus button on the order page (shown only when the current quantity
is positive): decrement, deleting the key when it reaches zero. -/
def selDec (sel : Items) (k : String) : Items :=
  let current := dictGetD sel k 0
  if 0 < current then
    if current - 1 = 0 then dictErase sel k else dictSet sel k (current - 1)
  else sel

/-- Whole-session state: the store plus the order page's drink selection. -/
structure Session where
  store : Store
  selected_drinks : Items
  deriving DecidableEq, Repr

/-- The initial session state. -/
def initSession : Session := { store := initStore, selected_drinks := [] }

/-- The discrete user actions that mutate core state in `src/main.py`. -/
inductive UIEvent where
  | selPlus (k : String)
  | selMinus (k : String)
  | placeOrder (now : Nat)
  | serve (id : String) (today : String)
  | clearCompleted
  deriving DecidableEq, Repr

/-- One user action.  PLACE ORDER submits the current selection only when it
is non-empty and clears it only when `add_order` reports success. -/
def uiStep (st : Session) : UIEvent → Session
  | UIEvent.selPlus k => { st with selected_drinks := selInc st.selected_drinks k }
  | UIEvent.selMinus k => { st with selected_drinks := selDec st.selected_drinks k }
  | UIEvent.placeOrder now =>
    if st.selected_drinks.isEmpty then st
    else
      let r := add_order st.store st.selected_drinks now
      if r.1 then { store := r.2, selected_drinks := [] } else { st with store := r.2 }
  | UIEvent.serve id today => { st with store := (mark_order_completed st.store id today).2 }
  | UIEvent.clearCompleted => { st with store := clear_completed st.store }

/-- Run a sequence of user actions from a session state. -/
def runUI (st : Session) (events : List UIEvent) : Session :=
  events.foldl uiStep st

/-- A sequence of `add_order` calls, each an items map with its timestamp. -/
def placeAll (s : Store) (ps : List (Items × Nat)) : Store :=
  ps.foldl (fun t p => (add_order t p.1 p.2).2) s

/-- A sequence of `mark_order_completed` calls on one day. -/
def serveAll (s : Store) (d : String) : List String → Store
  | [] => s
  | id :: ids => serveAll (mark_order_completed s id d).2 d ids

/-- Cup total of the first order matching an identifier (0 when none does):
the amount one `mark_order_completed` call adds to today's counter. -/
def cupsOfMatch (s : Store) (id : String) : Nat :=
  match s.orders.find? (fun o => o.order_number == id) with
  | some o => sumQ o.drinks
  | none => 0

/-- Total cups credited to the day by a sequence of completion calls. -/
def cupsServed (s : Store) (d : String) : List String → Nat
  | [] => 0
  | id :: ids => cupsOfMatch s id + cupsServed (mark_order_completed s id d).2 d ids

/-- An order whose drinks dict lives in an explicit heap cell, to model
Python dict aliasing around `drinks_dict.copy()`. -/
structure OrderRef where
  order_number : String
  drinksRef : Nat
  timestamp : Nat
  status : Status
  deriving DecidableEq, Repr

/-- Store variant whose orders reference heap cells holding their dicts. -/
structure HeapStore where
  heap : List Items
  orders : List OrderRef
  card_counter : Nat
  deriving DecidableEq, Repr

/-- Dereference a heap cell (a Python dict object). -/
def readCell (h : List Items) (r : Nat) : Items :=
  h.getD r []

/-- `add_order` in the heap model: the appended order stores a fresh cell
holding `drinks_dict.copy()`, never the caller's cell itself.  Returns
(success, new store, reference of the stored copy). -/
def add_order_ref (s : HeapStore) (selRef : Nat) (now : Nat) : Bool × HeapStore × Nat :=
  if (readCell s.heap selRef).isEmpty then (false, s, 0)
  else
    let g := generate_order_number s.card_counter
    let newRef := s.heap.length
    (true,
     { heap := s.heap ++ [readCell s.heap selRef],
       orders := s.orders ++
         [{ order_number := g.1, drinksRef := newRef, timestamp := now, status := Status.pending }],
       card_counter := g.2 },
     newRef)

/-- Resolve a heap-model order to a plain order by dereferencing its dict. -/
def derefOrder (h : List Items) (o : OrderRef) : Order :=
  { order_number := o.order_number, drinks := readCell h o.drinksRef,
    timestamp := o.timestamp, status := o.status }

/-- Drink keys paired with quantities of one entry list, restricted to one
key: the total quantity the entries with that key contribute. -/
def keySum (d : Items) (k : String) : Nat :=
  ((d.filter (fun p => p.1 == k)).map Prod.snd).sum

/-- Well-formed order: non-empty drinks, all quantities at least 1. -/
def orderWF (o : Order) : Prop :=
  o.drinks ≠ [] ∧ ∀ p ∈ o.drinks, 1 ≤ p.2

/-- Store invariant: every stored order is well-formed. -/
def storeWF (s : Store) : Prop :=
  ∀ o ∈ s.orders, orderWF o

/-- Selection invariant kept by the plus/minus buttons: every quantity in
the current selection is at least 1. -/
def selWF (sel : Items) : Prop :=
  ∀ p ∈ sel, 1 ≤ p.2

/-- Concrete store for exercising a double completion: one pending 2-cup
order with ticket ♠️A. -/
def c1Store : Store :=
  { orders := [{ order_number := "♠️A", drinks := [("Hot Latte", 2)], timestamp := 0,
                 status := Status.pending }],
    card_counter := 1, daily_served := [] }

/-- Concrete store where a completed order and a pending order share the
ticket ♠️A; the completed one was inserted first. -/
def c2Store : Store :=
  { orders :=
      [{ order_number := "♠️A", drinks := [("Hot Latte", 1)], timestamp := 0,
         status := Status.completed },
       { order_number := "♠️A", drinks := [("Iced Mocha", 3)], timestamp := 1,
         status := Status.pending }],
    card_counter := 2, daily_served := [] }

/-- Concrete heap-model store: one dict object (the selection) and no
orders yet. -/
def heapStoreEx : HeapStore :=
  { heap := [[("Hot Latte", 2)]], orders := [], card_counter := 0 }

theorem status_not_completed (o : Order) :
    (!(o.status == Status.completed)) = (o.status == Status.pending) := by
  cases o.status <;> rfl

theorem filter_idem (p : Order → Bool) (l : List Order) :
    (l.filter p).filter p = l.filter p := by
  induction l with
  | nil => rfl
  | cons a l ih =>
    cases h : p a <;> simp [List.filter_cons, h, ih]

theorem dictGetD_dictSet_self (m : List (String × Nat)) (k : String) (v d : Nat) :
    dictGetD (dictSet m k v) k d = v := by
  induction m with
  | nil => simp [dictSet, dictGetD]
  | cons p rest ih =>
    by_cases h : p.1 = k
    · simp [dictSet, dictGetD, beq_iff_eq.mpr h]
    · simp [dictSet, dictGetD, beq_eq_false_iff_ne.mpr h, ih]

theorem dictGetD_dictSet_ne (m : List (String × Nat)) (k' k : String) (v d : Nat)
    (h : k' ≠ k) : dictGetD (dictSet m k' v) k d = dictGetD m k d := by
  induction m with
  | nil => simp [dictSet, dictGetD, beq_eq_false_iff_ne.mpr h]
  | cons p rest ih =>
    by_cases hp : p.1 = k'
    · simp [dictSet, dictGetD, beq_iff_eq.mpr hp, beq_eq_false_iff_ne.mpr h, hp]
    · simp [dictSet, dictGetD, beq_eq_false_iff_ne.mpr hp, ih]

theorem markLoop_daily (id d : String) (daily : List (String × Nat)) (L : List Order) :
    (markLoop id d daily L).2.2
      = match L.find? (fun o => o.order_number == id) with
        | some o => dictSet daily d (dictGetD daily d 0 + sumQ o.drinks)
        | none => daily := by
  induction L with
  | nil => rfl
  | cons o rest ih =>
    by_cases h : o.order_number = id
    · simp [markLoop, List.find?_cons, beq_iff_eq.mpr h]
    · simp [markLoop, List.find?_cons, beq_eq_false_iff_ne.mpr h, ih]

theorem mark_served_delta (s : Store) (id d : String) :
    get_today_served (mark_order_completed s id d).2 d
      = get_today_served s d + cupsOfMatch s id := by
  simp only [mark_order_completed, get_today_served, cupsOfMatch, markLoop_daily]
  cases h : s.orders.find? (fun o => o.order_number == id) with
  | none => simp [h]
  | some o => simp [h, dictGetD_dictSet_self]

theorem mark_other_day (s : Store) (id d d' : String) (h : d' ≠ d) :
    get_today_served (mark_order_completed s id d).2 d'
      = get_today_served s d' := by
  simp only [mark_order_completed, get_today_served, markLoop_daily]
  cases hf : s.orders.find? (fun o => o.order_number == id) with
  | none => simp [hf]
  | some o => simp [hf, dictGetD_dictSet_ne _ _ _ _ _ (Ne.symm h)]

/-- C5: the sequential allocator maps counter c to the identifier
suit[(c / 13) % 4] ++ rank[c % 13] and increments the counter by one, and
the identifier sequence has period 52, so the 53rd allocation (at counter
52) returns the same identifier as the 1st (at counter 0). -/
theorem C5_sequential_allocator (c : Nat) :
    (generate_order_number c).1
      = SUITS.getD ((c / 13) % 4) "" ++ NUMBERS.getD (c % 13) ""
    ∧ (generate_order_number c).2 = c + 1
    ∧ (generate_order_number (c + 52)).1 = (generate_order_number c).1 := by
  refine ⟨rfl, rfl, ?_⟩
  have h13 : (c + 52) % 13 = c % 13 := by omega
  have h4 : ((c + 52) / 13) % 4 = (c / 13) % 4 := by
    have h : (c + 52) / 13 = c / 13 + 4 := by omega
    rw [h]; omega
  simp only [generate_order_number]
  rw [h13, h4]

theorem add_order_eq (s : Store) (d : Items) (now : Nat) (hd : d ≠ []) :
    add_order s d now
      = (true,
         { s with
            orders := s.orders ++
              [{ order_number := (generate_order_number s.card_counter).1,
                 drinks := d, timestamp := now, status := Status.pending }],
            card_counter := s.card_counter + 1 }) := by
  match d, hd with
  | p :: rest, _ => rfl

theorem insertByTime_perm (o : Order) (l : List Order) :
    List.Perm (insertByTime o l) (o :: l) := by
  induction l with
  | nil => exact List.Perm.refl _
  | cons b l ih =>
    simp only [insertByTime]
    by_cases h : o.timestamp ≤ b.timestamp
    · rw [if_pos h]
    · rw [if_neg h]
      exact (ih.cons b).trans (List.Perm.swap o b l)

theorem sortByTime_perm (l : List Order) : List.Perm (sortByTime l) l := by
  induction l with
  | nil => exact List.Perm.refl _
  | cons a l ih => exact (insertByTime_perm a (sortByTime l)).trans (ih.cons a)

theorem insertByTime_pairwise (o : Order) (l : List Order)
    (h : List.Pairwise (fun a b : Order => a.timestamp ≤ b.timestamp) l) :
    List.Pairwise (fun a b : Order => a.timestamp ≤ b.timestamp) (insertByTime o l) := by
  induction l with
  | nil => simp [insertByTime]
  | cons b l ih =>
    rcases List.pairwise_cons.mp h with ⟨hb, hl⟩
    simp only [insertByTime]
    by_cases hle : o.timestamp ≤ b.timestamp
    · rw [if_pos hle]
      refine List.pairwise_cons.mpr ⟨?_, h⟩
      intro c hc
      rcases List.mem_cons.mp hc with rfl | hc
      · exact hle
      · exact le_trans hle (hb c hc)
    · rw [if_neg hle]
      refine List.pairwise_cons.mpr ⟨?_, ih hl⟩
      intro c hc
      have hc2 := (insertByTime_perm o l).mem_iff.mp hc
      rcases List.mem_cons.mp hc2 with rfl | hc2
      · omega
      · exact hb c hc2

theorem sortByTime_pairwise (l : List Order) :
    List.Pairwise (fun a b : Order => a.timestamp ≤ b.timestamp) (sortByTime l) := by
  induction l with
  | nil => simp [sortByTime]
  | cons a l ih => exact insertByTime_pairwise a (sortByTime l) ih

theorem sortByTime_of_pairwise (l : List Order)
    (h : List.Pairwise (fun a b : Order => a.timestamp ≤ b.timestamp) l) :
    sortByTime l = l := by
  induction l with
  | nil => rfl
  | cons a l ih =>
    rcases List.pairwise_cons.mp h with ⟨ha, hl⟩
    have hstep : sortByTime (a :: l) = insertByTime a (sortByTime l) := rfl
    rw [hstep, ih hl]
    cases l with
    | nil => rfl
    | cons b l => simp [insertByTime, ha b (by simp)]

theorem placeAll_append (ps : List (Items × Nat)) :
    ∀ s : Store, (∀ p ∈ ps, p.1 ≠ []) →
    ∃ news : List Order,
      (placeAll s ps).orders = s.orders ++ news
      ∧ news.map (fun o => (o.drinks, o.timestamp)) = ps
      ∧ ∀ o ∈ news, o.status = Status.pending := by
  induction ps with
  | nil => exact fun s _ => ⟨[], by simp [placeAll], rfl, by simp⟩
  | cons p ps ih =>
    intro s hps
    have hp : p.1 ≠ [] := hps p (by simp)
    obtain ⟨news, h1, h2, h3⟩ :=
      ih (add_order s p.1 p.2).2 (fun q hq => hps q (by simp [hq]))
    rw [add_order_eq s p.1 p.2 hp] at h1
    refine ⟨{ order_number := (generate_order_number s.card_counter).1,
              drinks := p.1, timestamp := p.2, status := Status.pending } :: news, ?_, ?_, ?_⟩
    · have hstep : placeAll s (p :: ps) = placeAll (add_order s p.1 p.2).2 ps := rfl
      rw [hstep, add_order_eq s p.1 p.2 hp, h1]
      simp
    · simp [h2]
    · intro o ho
      rcases List.mem_cons.mp ho with rfl | ho
      · rfl
      · exact h3 o ho

/-- C7: `add_order` on an empty items map returns false and leaves the
store unchanged; on a non-empty map it returns true and appends exactly one
fully-formed pending order carrying the generated ticket, the items and the
timestamp, incrementing the ticket counter. -/
theorem C7_place_order (s : Store) (d : Items) (now : Nat) :
    add_order s [] now = (false, s)
    ∧ (d ≠ [] →
        add_order s d now
          = (true,
             { s with
                orders := s.orders ++
                  [{ order_number := (generate_order_number s.card_counter).1,
                     drinks := d, timestamp := now, status := Status.pending }],
                card_counter := s.card_counter + 1 })) := by
  refine ⟨rfl, ?_⟩
  intro hd
  match d, hd with
  | p :: rest, _ => rfl

/-- Witness for C7 at a concrete store and items map. -/
theorem C7_place_order_witness :
    add_order initStore [] 5 = (false, initStore)
    ∧ add_order initStore [("Hot Latte", 2)] 5
        = (true,
           { initStore with
              orders := initStore.orders ++
                [{ order_number := (generate_order_number initStore.card_counter).1,
                   drinks := [("Hot Latte", 2)], timestamp := 5, status := Status.pending }],
              card_counter := initStore.card_counter + 1 }) :=
  ⟨(C7_place_order initStore [("Hot Latte", 2)] 5).1,
   (C7_place_order initStore [("Hot Latte", 2)] 5).2 (by decide)⟩

theorem dictGetD_bumpFold (d : Items) :
    ∀ (acc : List (String × Nat)) (k : String),
    dictGetD (d.foldl bumpDrink acc) k 0 = dictGetD acc k 0 + keySum d k := by
  induction d with
  | nil => intro acc k; simp [keySum]
  | cons p rest ih =>
    intro acc k
    have hstep : (p :: rest).foldl bumpDrink acc = rest.foldl bumpDrink (bumpDrink acc p) := rfl
    rw [hstep, ih]
    by_cases hp : p.1 = k
    · have h1 : dictGetD (bumpDrink acc p) k 0 = dictGetD acc p.1 0 + p.2 := by
        rw [bumpDrink, hp, dictGetD_dictSet_self]
      have h2 : keySum (p :: rest) k = p.2 + keySum rest k := by
        simp [keySum, List.filter_cons, beq_iff_eq.mpr hp]
      rw [h1, h2, hp]
      omega
    · have h1 : dictGetD (bumpDrink acc p) k 0 = dictGetD acc k 0 :=
        dictGetD_dictSet_ne acc p.1 k _ 0 hp
      have h2 : keySum (p :: rest) k = keySum rest k := by
        simp [keySum, List.filter_cons, beq_eq_false_iff_ne.mpr hp]
      rw [h1, h2]

theorem keySum_eq_zero (d : Items) (k : String) (h : ∀ q ∈ d, q.1 ≠ k) :
    keySum d k = 0 := by
  induction d with
  | nil => rfl
  | cons p rest ih =>
    have hp : p.1 ≠ k := h p (by simp)
    have hrest : keySum rest k = 0 := ih (fun q hq => h q (by simp [hq]))
    simp [keySum, List.filter_cons, beq_eq_false_iff_ne.mpr hp]
    simpa [keySum] using hrest

theorem keySum_eq_dictGetD (d : Items) (k : String) (h : (d.map Prod.fst).Nodup) :
    keySum d k = dictGetD d k 0 := by
  induction d with
  | nil => rfl
  | cons p rest ih =>
    rcases List.pairwise_cons.mp h with ⟨hhead, htail⟩
    by_cases hp : p.1 = k
    · have hnot : ∀ q ∈ rest, q.1 ≠ k := by
        intro q hq
        have := hhead q.1 (List.mem_map.mpr ⟨q, hq, rfl⟩)
        rw [hp] at this
        exact this.symm
      have hz := keySum_eq_zero rest k hnot
      simp [keySum, List.filter_cons, beq_iff_eq.mpr hp, dictGetD]
      simpa [keySum] using hz
    · have h1 : keySum (p :: rest) k = keySum rest k := by
        simp [keySum, List.filter_cons, beq_eq_false_iff_ne.mpr hp]
      rw [h1, ih htail]
      simp [dictGetD, beq_eq_false_iff_ne.mpr hp]

theorem dictGetD_summaryFold (L : List Order) :
    ∀ (acc : List (String × Nat)) (k : String),
    dictGetD (L.foldl (fun acc o => o.drinks.foldl bumpDrink acc) acc) k 0
      = dictGetD acc k 0 + (L.map (fun o => keySum o.drinks k)).sum := by
  induction L with
  | nil => intro acc k; simp
  | cons o rest ih =>
    intro acc k
    have hstep : (o :: rest).foldl (fun acc o => o.drinks.foldl bumpDrink acc) acc
        = rest.foldl (fun acc o => o.drinks.foldl bumpDrink acc) (o.drinks.foldl bumpDrink acc) :=
      rfl
    rw [hstep, ih, dictGetD_bumpFold]
    simp
    omega

/-- C3: for every key, the drink summary holds exactly the key-wise sum of
the items maps of the orders whose status is pending (given the dict
representation invariant that each order's drink keys are distinct). -/
theorem C3_drink_demand (s : Store) (k : String)
    (h : ∀ o ∈ s.orders, (o.drinks.map Prod.fst).Nodup) :
    dictGetD (get_drink_summary s) k 0
      = ((s.orders.filter (fun o => o.status == Status.pending)).map
          (fun o => dictGetD o.drinks k 0)).sum := by
  have hA : dictGetD (get_drink_summary s) k 0
      = ((get_pending_orders s).map (fun o => keySum o.drinks k)).sum := by
    simp only [get_drink_summary]
    rw [dictGetD_summaryFold]
    simp [dictGetD]
  have hmem : ∀ o ∈ get_pending_orders s, o ∈ s.orders := by
    intro o ho
    have h2 := (sortByTime_perm _).mem_iff.mp ho
    exact (List.mem_filter.mp h2).1
  have hB : (get_pending_orders s).map (fun o => keySum o.drinks k)
      = (get_pending_orders s).map (fun o => dictGetD o.drinks k 0) :=
    List.map_congr_left (fun o ho => keySum_eq_dictGetD o.drinks k (h o (hmem o ho)))
  have hC : ((get_pending_orders s).map (fun o => dictGetD o.drinks k 0)).sum
      = ((s.orders.filter (fun o => o.status == Status.pending)).map
          (fun o => dictGetD o.drinks k 0)).sum :=
    ((sortByTime_perm _).map _).sum_eq
  rw [hA, hB, hC]

/-- Witness for C3 on a concrete two-order store: the summary credits only
the pending order's drinks. -/
theorem C3_drink_demand_witness :
    dictGetD (get_drink_summary c2Store) "Iced Mocha" 0
      = ((c2Store.orders.filter (fun o => o.status == Status.pending)).map
          (fun o => dictGetD o.drinks "Iced Mocha" 0)).sum :=
  C3_drink_demand c2Store "Iced Mocha" (by decide)

/-- C4: `get_pending_orders` returns exactly the orders with status
pending (a permutation of the status filter) in ascending timestamp order;
the sort is stable, so a pending filter already in non-decreasing timestamp
order is returned verbatim; and every sequence of placements with
non-empty item maps and non-decreasing timestamps is listed back in
exactly placement order (FIFO), one position per order even when two
share an identifier string. -/
theorem C4_pending_fifo :
    (∀ s : Store,
        List.Perm (get_pending_orders s)
          (s.orders.filter (fun o => o.status == Status.pending))
        ∧ List.Pairwise (fun a b : Order => a.timestamp ≤ b.timestamp) (get_pending_orders s)
        ∧ (List.Pairwise (fun a b : Order => a.timestamp ≤ b.timestamp)
              (s.orders.filter (fun o => o.status == Status.pending)) →
            get_pending_orders s = s.orders.filter (fun o => o.status == Status.pending)))
    ∧ (∀ ps : List (Items × Nat), (∀ p ∈ ps, p.1 ≠ []) →
        List.Chain' (fun a b : Nat => a ≤ b) (ps.map Prod.snd) →
        (get_pending_orders (placeAll initStore ps)).map (fun o => (o.drinks, o.timestamp))
          = ps) := by
  constructor
  · intro s
    exact ⟨sortByTime_perm _, sortByTime_pairwise _, fun h => sortByTime_of_pairwise _ h⟩
  · intro ps hne hchain
    obtain ⟨news, h1, h2, h3⟩ := placeAll_append ps initStore hne
    have horders : (placeAll initStore ps).orders = news := by simpa [initStore] using h1
    have hts : news.map (fun o => o.timestamp) = ps.map Prod.snd := by
      have hmap := congrArg (List.map Prod.snd) h2
      simpa [List.map_map, Function.comp] using hmap
    have hpw : List.Pairwise (fun a b : Order => a.timestamp ≤ b.timestamp) news := by
      have hch := List.chain'_iff_pairwise.mp hchain
      rw [← hts] at hch
      exact List.pairwise_map.mp hch
    have hfilter : news.filter (fun o => o.status == Status.pending) = news := by
      rw [List.filter_eq_self]
      intro o ho
      simp [h3 o ho]
    simp only [get_pending_orders]
    rw [horders, hfilter, sortByTime_of_pairwise _ hpw, h2]

/-- Witness for C4: two concrete placements come back FIFO, and a concrete
store's already-ordered pending filter is returned verbatim. -/
theorem C4_pending_fifo_witness :
    (get_pending_orders
        (placeAll initStore [([("Hot Latte", 2)], 5), ([("Iced Mocha", 1)], 7)])).map
        (fun o => (o.drinks, o.timestamp))
      = [([("Hot Latte", 2)], 5), ([("Iced Mocha", 1)], 7)]
    ∧ get_pending_orders c2Store
      = c2Store.orders.filter (fun o => o.status == Status.pending) :=
  ⟨C4_pending_fifo.2 [([("Hot Latte", 2)], 5), ([("Iced Mocha", 1)], 7)]
      (by decide) (by simp [List.chain'_cons, List.chain'_singleton]),
   (C4_pending_fifo.1 c2Store).2.2 (by decide)⟩

/-- C9: the clear-completed handler keeps exactly the pending orders in
their original relative order, touches neither the counter nor the daily
tallies, and is idempotent on the whole store state. -/
theorem C9_clear_completed (s : Store) :
    (clear_completed s).orders = s.orders.filter (fun o => o.status == Status.pending)
    ∧ (clear_completed s).card_counter = s.card_counter
    ∧ (clear_completed s).daily_served = s.daily_served
    ∧ clear_completed (clear_completed s) = clear_completed s := by
  have hf : (fun o : Order => !(o.status == Status.completed))
      = (fun o : Order => o.status == Status.pending) :=
    funext status_not_completed
  refine ⟨?_, rfl, rfl, ?_⟩
  · simp only [clear_completed, hf]
  · simp only [clear_completed, filter_idem]

/-- C8: a sequence of completion calls on one day adds exactly the cup
totals of the orders it matched to that day's counter (each successful call
adds its matched order's item-quantity sum), days other than the current
one keep their stored totals unchanged and queryable, and a day with no
entry in the date-keyed mapping reads as 0. -/
theorem C8_served_today (s : Store) (ids : List String) (d : String) :
    get_today_served (serveAll s d ids) d = get_today_served s d + cupsServed s d ids
    ∧ (∀ d', d' ≠ d → get_today_served (serveAll s d ids) d' = get_today_served s d')
    ∧ ((∀ p ∈ s.daily_served, p.1 ≠ d) → get_today_served s d = 0) := by
  refine ⟨?_, ?_, ?_⟩
  · induction ids generalizing s with
    | nil => simp [serveAll, cupsServed]
    | cons id ids ih =>
      simp only [serveAll, cupsServed]
      rw [ih, mark_served_delta]
      omega
  · intro d' hd'
    induction ids generalizing s with
    | nil => simp [serveAll]
    | cons id ids ih =>
      simp only [serveAll]
      rw [ih, mark_other_day _ _ _ _ hd']
  · intro hfresh
    have key : ∀ m : List (String × Nat), (∀ p ∈ m, p.1 ≠ d) → dictGetD m d 0 = 0 := by
      intro m
      induction m with
      | nil => intro _; rfl
      | cons p rest ih =>
        intro hm
        have h1 : p.1 ≠ d := hm p (by simp)
        simp only [dictGetD, beq_eq_false_iff_ne.mpr h1, if_false]
        exact ih (fun q hq => hm q (by simp [hq]))
    exact key s.daily_served hfresh

/-- Witness for C8: one completion of the 2-cup order credits 2 cups to
its day, leaves another day's counter untouched, and the starting store
reads 0 for the day. -/
theorem C8_served_today_witness :
    (get_today_served (serveAll c1Store "2026-01-02" ["♠️A"]) "2026-01-02"
      = get_today_served c1Store "2026-01-02" + cupsServed c1Store "2026-01-02" ["♠️A"])
    ∧ get_today_served (serveAll c1Store "2026-01-02" ["♠️A"]) "2026-01-03"
      = get_today_served c1Store "2026-01-03"
    ∧ get_today_served c1Store "2026-01-02" = 0 :=
  ⟨(C8_served_today c1Store ["♠️A"] "2026-01-02").1,
   (C8_served_today c1Store ["♠️A"] "2026-01-02").2.1 "2026-01-03" (by decide),
   (C8_served_today c1Store ["♠️A"] "2026-01-02").2.2 (by decide)⟩

theorem mem_dictSet (m : List (String × Nat)) (k : String) (v : Nat) :
    ∀ p ∈ dictSet m k v, p = (k, v) ∨ p ∈ m := by
  induction m with
  | nil =>
    intro p hp
    simp [dictSet] at hp
    exact Or.inl hp
  | cons q rest ih =>
    intro p hp
    simp only [dictSet] at hp
    by_cases h : q.1 = k
    · rw [if_pos (beq_iff_eq.mpr h)] at hp
      rcases List.mem_cons.mp hp with rfl | hp
      · exact Or.inl rfl
      · exact Or.inr (List.mem_cons.mpr (Or.inr hp))
    · rw [if_neg (by simp [h])] at hp
      rcases List.mem_cons.mp hp with rfl | hp
      · exact Or.inr (List.mem_cons.mpr (Or.inl rfl))
      · rcases ih p hp with h1 | h1
        · exact Or.inl h1
        · exact Or.inr (List.mem_cons.mpr (Or.inr h1))

theorem selWF_selInc (sel : Items) (k : String) (h : selWF sel) : selWF (selInc sel k) := by
  intro p hp
  rcases mem_dictSet sel k _ p hp with rfl | hp
  · show 1 ≤ dictGetD sel k 0 + 1
    omega
  · exact h p hp

theorem selWF_selDec (sel : Items) (k : String) (h : selWF sel) : selWF (selDec sel k) := by
  intro p hp
  simp only [selDec] at hp
  by_cases h0 : 0 < dictGetD sel k 0
  · rw [if_pos h0] at hp
    by_cases h1 : dictGetD sel k 0 - 1 = 0
    · rw [if_pos h1] at hp
      simp only [dictErase] at hp
      exact h p (List.Sublist.subset (List.eraseP_sublist sel) hp)
    · rw [if_neg h1] at hp
      rcases mem_dictSet sel k _ p hp with rfl | hp
      · show 1 ≤ dictGetD sel k 0 - 1
        omega
      · exact h p hp
  · rw [if_neg h0] at hp
    exact h p hp

theorem markLoop_orders (id d : String) (daily : List (String × Nat)) (L : List Order) :
    ∀ o' ∈ (markLoop id d daily L).2.1, ∃ o ∈ L, o'.drinks = o.drinks := by
  induction L with
  | nil =>
    intro o' ho'
    simp [markLoop] at ho'
  | cons o rest ih =>
    intro o' ho'
    simp only [markLoop] at ho'
    by_cases h : o.order_number = id
    · rw [if_pos (beq_iff_eq.mpr h)] at ho'
      rcases List.mem_cons.mp ho' with rfl | ho'
      · exact ⟨o, by simp, rfl⟩
      · exact ⟨o', List.mem_cons.mpr (Or.inr ho'), rfl⟩
    · rw [if_neg (by simp [h])] at ho'
      rcases List.mem_cons.mp ho' with rfl | ho'
      · exact ⟨o', by simp, rfl⟩
      · rcases ih o' ho' with ⟨o₀, ho₀, hd⟩
        exact ⟨o₀, List.mem_cons.mpr (Or.inr ho₀), hd⟩

theorem storeWF_mark (s : Store) (id d : String) (h : storeWF s) :
    storeWF (mark_order_completed s id d).2 := by
  intro o' ho'
  rcases markLoop_orders id d s.daily_served s.orders o' ho' with ⟨o, ho, hd⟩
  rcases h o ho with ⟨h1, h2⟩
  constructor
  · rw [hd]; exact h1
  · intro p hp
    rw [hd] at hp
    exact h2 p hp

theorem storeWF_clear (s : Store) (h : storeWF s) : storeWF (clear_completed s) := by
  intro o ho
  exact h o (List.mem_filter.mp ho).1

theorem storeWF_add (s : Store) (sel : Items) (now : Nat) (hs : storeWF s)
    (hsel : selWF sel) (hne : sel ≠ []) : storeWF (add_order s sel now).2 := by
  rw [add_order_eq s sel now hne]
  intro o ho
  rcases List.mem_append.mp ho with ho | ho
  · exact hs o ho
  · rcases List.mem_singleton.mp ho with rfl
    exact ⟨hne, hsel⟩

theorem uiStep_WF (st : Session) (e : UIEvent) (h1 : storeWF st.store)
    (h2 : selWF st.selected_drinks) :
    storeWF (uiStep st e).store ∧ selWF (uiStep st e).selected_drinks := by
  cases e with
  | selPlus k => exact ⟨h1, selWF_selInc _ k h2⟩
  | selMinus k => exact ⟨h1, selWF_selDec _ k h2⟩
  | placeOrder now =>
    by_cases he : st.selected_drinks.isEmpty
    · have hid : uiStep st (UIEvent.placeOrder now) = st := by
        simp [uiStep, he]
      rw [hid]
      exact ⟨h1, h2⟩
    · have hne : st.selected_drinks ≠ [] := by
        intro hsel
        rw [hsel] at he
        simp at he
      have hadd := add_order_eq st.store st.selected_drinks now hne
      have hid : uiStep st (UIEvent.placeOrder now)
          = { store := (add_order st.store st.selected_drinks now).2,
              selected_drinks := [] } := by
        simp [uiStep, he, hadd]
      rw [hid]
      exact ⟨storeWF_add st.store st.selected_drinks now h1 h2 hne,
             fun p hp => absurd hp (List.not_mem_nil p)⟩
  | serve id today => exact ⟨storeWF_mark st.store id today h1, h2⟩
  | clearCompleted => exact ⟨storeWF_clear st.store h1, h2⟩

theorem runUI_WF (events : List UIEvent) :
    ∀ st : Session, storeWF st.store → selWF st.selected_drinks →
    storeWF (runUI st events).store ∧ selWF (runUI st events).selected_drinks := by
  induction events with
  | nil => exact fun st hst hsel => ⟨hst, hsel⟩
  | cons e events ih =>
    intro st hst hsel
    have hstep : runUI st (e :: events) = runUI (uiStep st e) events := rfl
    rw [hstep]
    rcases uiStep_WF st e hst hsel with ⟨h1, h2⟩
    exact ih (uiStep st e) h1 h2

/-- C6: on every session state reachable from the initial state through the
user actions of the interface, every stored order has a non-empty items
map every entry of which has quantity at least 1; each operation — placing
the current selection, serving an order, clearing completed orders, and
the selection plus/minus buttons feeding placement — preserves this, so no
order with an empty map or a zero quantity is ever stored. -/
theorem C6_store_invariant (events : List UIEvent) :
    storeWF (runUI initSession events).store :=
  (runUI_WF events initSession
    (fun o ho => absurd ho (List.not_mem_nil o))
    (fun p hp => absurd hp (List.not_mem_nil p))).1

/-- C1 fails on the code: `mark_order_completed` never checks the status,
so completing the same ticket twice reports success both times and credits
the 2-cup order to the day twice (count 4 instead of 2), where the claim
requires the second call to fail with no second increment. -/
theorem C1_double_completion_bug :
    (mark_order_completed c1Store "♠️A" "2026-01-02").1 = true
    ∧ (mark_order_completed
        (mark_order_completed c1Store "♠️A" "2026-01-02").2 "♠️A" "2026-01-02").1 = true
    ∧ get_today_served
        (mark_order_completed
          (mark_order_completed c1Store "♠️A" "2026-01-02").2 "♠️A" "2026-01-02").2
        "2026-01-02" = 4 :=
  ⟨rfl, rfl, rfl⟩

/-- C2 fails on the code: the scan in `mark_order_completed` matches on the
identifier alone, so with a completed order stored before a pending order
sharing ticket ♠️A, the call reports success, re-completes the already
completed first order (crediting its single cup again), and leaves the
pending order pending, where the claim requires flipping the first pending
match. -/
theorem C2_status_ignored_bug :
    mark_order_completed c2Store "♠️A" "2026-01-02"
      = (true,
         { orders :=
             [{ order_number := "♠️A", drinks := [("Hot Latte", 1)], timestamp := 0,
                status := Status.completed },
              { order_number := "♠️A", drinks := [("Iced Mocha", 3)], timestamp := 1,
                status := Status.pending }],
           card_counter := 2, daily_served := [("2026-01-02", 1)] }) :=
  rfl

theorem getD_append_length (l : List Items) (v : Items) :
    (l ++ [v]).getD l.length [] = v := by
  induction l with
  | nil => rfl
  | cons a l ih =>
    simp only [List.cons_append, List.length_cons, List.getD_cons_succ]
    exact ih

theorem getD_set_ne (l : List Items) (i j : Nat) (v : Items) (h : i ≠ j) :
    (l.set i v).getD j [] = l.getD j [] := by
  induction l generalizing i j with
  | nil => rfl
  | cons a l ih =>
    cases i with
    | zero =>
      cases j with
      | zero => exact absurd rfl h
      | succ j => simp
    | succ i =>
      cases j with
      | zero => simp
      | succ j =>
        simp only [List.set_cons_succ, List.getD_cons_succ]
        exact ih i j (by omega)

/-- C10: the stored order holds an independent copy of the caller's drinks
dict: placement succeeds on a non-empty selection, and after any in-place
mutation of the selection cell (clearing it, say) the stored order's items
still read as the contents at placement time; when no previously stored
order aliases the selection cell, the whole dereferenced order list — the
input of the pending and summary views — is unchanged by the mutation. -/
theorem C10_items_copied (s : HeapStore) (selRef : Nat) (now : Nat) (v : Items)
    (href : selRef < s.heap.length) (hne : ¬(readCell s.heap selRef).isEmpty) :
    (add_order_ref s selRef now).1 = true
    ∧ readCell ((add_order_ref s selRef now).2.1.heap.set selRef v)
        (add_order_ref s selRef now).2.2
      = readCell s.heap selRef
    ∧ ((∀ o ∈ s.orders, o.drinksRef ≠ selRef) →
        ((add_order_ref s selRef now).2.1.orders).map
          (derefOrder ((add_order_ref s selRef now).2.1.heap.set selRef v))
        = ((add_order_ref s selRef now).2.1.orders).map
            (derefOrder (add_order_ref s selRef now).2.1.heap)) := by
  have hif : add_order_ref s selRef now
      = (true,
         { heap := s.heap ++ [readCell s.heap selRef],
           orders := s.orders ++
             [{ order_number := (generate_order_number s.card_counter).1,
                drinksRef := s.heap.length, timestamp := now, status := Status.pending }],
           card_counter := s.card_counter + 1 },
         s.heap.length) := by
    simp [add_order_ref, hne, generate_order_number]
  rw [hif]
  refine ⟨rfl, ?_, ?_⟩
  · have hne2 : selRef ≠ s.heap.length := by omega
    show ((s.heap ++ [readCell s.heap selRef]).set selRef v).getD s.heap.length [] = _
    rw [getD_set_ne _ _ _ _ hne2, getD_append_length]
  · intro hal
    apply List.map_congr_left
    intro o ho
    rcases List.mem_append.mp ho with ho | ho
    · have hne3 : selRef ≠ o.drinksRef := Ne.symm (hal o ho)
      simp only [derefOrder, readCell]
      rw [getD_set_ne _ _ _ _ hne3]
    · rcases List.mem_singleton.mp ho with rfl
      have hne4 : selRef ≠ s.heap.length := by omega
      simp only [derefOrder, readCell]
      rw [getD_set_ne _ _ _ _ hne4]

/-- Witness for C10: one selection cell, placement, then clearing the cell
leaves the stored copy readable. -/
theorem C10_items_copied_witness :
    (add_order_ref heapStoreEx 0 3).1 = true
    ∧ readCell ((add_order_ref heapStoreEx 0 3).2.1.heap.set 0 [])
        (add_order_ref heapStoreEx 0 3).2.2
      = readCell heapStoreEx.heap 0
    ∧ ((add_order_ref heapStoreEx 0 3).2.1.orders).map
        (derefOrder ((add_order_ref heapStoreEx 0 3).2.1.heap.set 0 []))
      = ((add_order_ref heapStoreEx 0 3).2.1.orders).map
          (derefOrder (add_order_ref heapStoreEx 0 3).2.1.heap) :=
  ⟨(C10_items_copied heapStoreEx 0 3 [] (by decide) (by decide)).1,
   (C10_items_copied heapStoreEx 0 3 [] (by decide) (by decide)).2.1,
   (C10_items_copied heapStoreEx 0 3 [] (by decide) (by decide)).2.2
     (fun o ho => absurd ho (List.not_mem_nil o))⟩

end CoffeeShop
